import Mathlib

/-!
Verification development for the `autopsy_pro_v3` fragment-extraction core.

This file shallowly embeds the extraction pipeline of
`autopsy_pro_v3/extractor.py` together with the supporting code from
`models.py`, `config.py` and `utils.py`, and proves the spec's claims about
it.

Modelling conventions:
* Python strings are Lean `String`s; all text processing is re-implemented
  over `List Char` with the exact semantics of the Python string methods
  used by the source (`splitlines`, `strip`, `lstrip`, `lower`, `count`,
  `in`, `startswith`, slicing).
* Python `re` word-boundary searches (`\b kw \b` where `kw` consists of
  word characters) are modelled by tokenising the text into maximal runs
  of word characters (`[A-Za-z0-9_]`, the ASCII core of `\w`) and counting
  tokens equal to the keyword, which coincides with `re.findall` for such
  patterns.
* Python floats appear only as the `doc_ratio` metric
  (`doc_lines / code_lines` for small non-negative integers) and the
  thresholds `0.15` / `0.05`; they are modelled as exact rationals.
* `hashlib.md5` digests are modelled by the hashed text itself: equality
  of digests is modelled as equality of the hashed strings (a
  collision-free model of the hash).
* Wall-clock values (`extraction_time`, `timestamp`) and logging are
  omitted: they do not influence the list of fragments.
-/

namespace Autopsy

/-! ## String utilities (Python string-method semantics) -/

/-- Characters of a string. -/
def chars (s : String) : List Char := s.data

/-- String from characters. -/
def ofChars (cs : List Char) : String := String.mk cs

/-- The single-quote character (code 39). -/
def sq : Char := Char.ofNat 39

/-- The double-quote character (code 34). -/
def dq : Char := Char.ofNat 34

/-- The opening-brace character (code 123). -/
def obr : Char := Char.ofNat 123

/-- The closing-brace character (code 125). -/
def cbr : Char := Char.ofNat 125

/-- Python `str.lower()` (ASCII model). -/
def lowerStr (s : String) : String := ofChars (s.data.map Char.toLower)

/-- Python whitespace test for `str.strip` / `str.split` (ASCII model). -/
def pyWs (c : Char) : Bool := c.isWhitespace

/-- Python `str.strip()` on a character list. -/
def trimChars (cs : List Char) : List Char :=
  ((cs.dropWhile pyWs).reverse.dropWhile pyWs).reverse

/-- Python truthiness of `l.strip()`: the line is blank iff the stripped text is empty. -/
def isBlank (l : String) : Bool := (trimChars l.data).isEmpty

/-- Split a character list at every occurrence of a separator character. -/
def splitChar (sep : Char) : List Char → List Char → List (List Char)
  | [], cur => [cur.reverse]
  | c :: rest, cur =>
    if c = sep then cur.reverse :: splitChar sep rest [] else splitChar sep rest (c :: cur)

/-- Python `str.splitlines()` restricted to `\n` separators:
`""` gives `[]`, and a trailing newline does not produce a trailing empty line. -/
def pySplitlines (s : String) : List String :=
  match s.data with
  | [] => []
  | c :: cs =>
    let parts := (splitChar '\n' (c :: cs) []).map ofChars
    if (c :: cs).getLast (by simp) = '\n' then parts.dropLast else parts

/-- Count the non-overlapping occurrences of a (non-empty) pattern, scanning
left to right as Python `str.count` does.  `fuel` bounds the scan; it is
always instantiated with the length of the text. -/
def countOccsAux (pat : List Char) : Nat → List Char → Nat
  | 0, _ => 0
  | _ + 1, [] => 0
  | fuel + 1, c :: rest =>
    if pat.isPrefixOf (c :: rest) then
      1 + countOccsAux pat fuel (rest.drop (pat.length - 1))
    else
      countOccsAux pat fuel rest

/-- Python `code.count(pat)` for a non-empty pattern. -/
def countOccs (s pat : String) : Nat := countOccsAux pat.data s.data.length s.data

/-- Python substring containment `pat in s` for a non-empty pattern. -/
def strContains (s pat : String) : Bool := decide (0 < countOccs s pat)

/-- Maximal runs of characters that do not satisfy the separator predicate. -/
def tokensByAux (p : Char → Bool) : List Char → List Char → List String
  | [], cur => if cur.isEmpty then [] else [ofChars cur.reverse]
  | c :: rest, cur =>
    if p c then
      if cur.isEmpty then tokensByAux p rest []
      else ofChars cur.reverse :: tokensByAux p rest []
    else tokensByAux p rest (c :: cur)

/-- Word characters, the ASCII core of the regex class `\w`. -/
def isWordChar (c : Char) : Bool := c.isAlphanum || c = '_'

/-- The maximal word-character runs of a string; `re.findall (\b kw \b) code`
for an all-word-character `kw` returns exactly the tokens equal to `kw`. -/
def wordTokens (code : String) : List String :=
  tokensByAux (fun c => !isWordChar c) code.data []

/-- Number of whole-word occurrences of `kw` in `code`. -/
def countWordToken (code kw : String) : Nat := (wordTokens code).count kw

/-- Python `str.split()` (split on whitespace runs, dropping empties). -/
def pySplitWs (s : String) : List String := tokensByAux pyWs s.data []

/-- Width of the leading whitespace, Python `len(line) - len(line.lstrip())`. -/
def leadingWs (l : String) : Nat := (l.data.takeWhile pyWs).length

/-- Join character lists with a separator character. -/
def joinSepChars (sep : Char) : List (List Char) → List Char
  | [] => []
  | [x] => x
  | x :: y :: xs => x ++ sep :: joinSepChars sep (y :: xs)

/-- Python `sep.join(parts)` for a single-character separator. -/
def joinSep (sep : Char) (parts : List String) : String :=
  ofChars (joinSepChars sep (parts.map String.data))

/-- Python `str.take`-style prefix of `n` characters (`code[:n]`). -/
def takeChars (s : String) (n : Nat) : String := ofChars (s.data.take n)

/-- Last index of a character in a list, if any. -/
def lastIdxOf (c : Char) (cs : List Char) : Option Nat :=
  match cs.reverse.findIdx? (fun d => d == c) with
  | none => none
  | some r => some (cs.length - 1 - r)

/-- `pathlib.Path(p).name`: the final `/`-separated path component. -/
def pathName (p : String) : String :=
  ofChars ((splitChar '/' p.data []).getLastD [])

/-- `pathlib.Path(p).suffix`: the extension of the final component, computed
as CPython does (`name[i:]` for the last dot index `i` with `0 < i < len-1`,
otherwise the empty string). -/
def pathSuffix (p : String) : String :=
  let name := (pathName p).data
  match lastIdxOf '.' name with
  | none => ""
  | some i => if 0 < i ∧ i < name.length - 1 then ofChars (name.drop i) else ""

/-! ## Complexity & documentation analyzer (`extractor.py` 17–74) -/

/-- `compute_complexity(code, lang)` from `extractor.py:17`.
Keyword occurrences are whole-word counts (the `\b...\b` regexes of the
source); the symbolic operators are plain substring counts. -/
def compute_complexity (code lang : String) : Int :=
  let python_keywords := ["if", "elif", "else", "for", "while", "except"]
  let other_keywords := ["case", "catch"]
  if lang = "py" ∨ lang = "python" then
    1 + ((python_keywords.map (fun kw => countWordToken code kw)).sum : Int)
      + (countWordToken code "and" : Int) + (countWordToken code "or" : Int)
  else
    1 + (((python_keywords ++ other_keywords).map (fun kw => countWordToken code kw)).sum : Int)
      + (countOccs code "&&" : Int) + (countOccs code "||" : Int)
      + (countOccs code "?" : Int)

/-- Does a stripped line start with one of the given comment markers? -/
def startsWithAny (stripped : List Char) (markers : List (List Char)) : Bool :=
  markers.any (fun m => m.isPrefixOf stripped)

/-- The comment markers that `compute_documentation_ratio` recognises for a
dialect (empty list for unknown dialects, which count no doc lines). -/
def docMarkers (lang : String) : List (List Char) :=
  if lang = "py" ∨ lang = "python" then
    [['#'], [dq, dq, dq], [sq, sq, sq]]
  else if lang ∈ ["js", "javascript", "typescript", "go", "rust", "java", "c", "cpp"] then
    [['/', '/'], ['/', '*'], ['*']]
  else if lang = "ruby" then
    [['#']]
  else if lang = "php" then
    [['/', '/'], ['#'], ['/', '*']]
  else []

/-- `compute_documentation_ratio(code, lang)` from `extractor.py:45`:
the fraction of non-blank lines starting (after stripping) with a comment
marker, `0.0` when there are no non-blank lines.  The Python float division
is modelled as exact rational division. -/
def compute_documentation_ratio (code lang : String) : ℚ :=
  let nonblank := (pySplitlines code).filter (fun l => !isBlank l)
  let code_lines : Nat := nonblank.length
  let doc_lines : Nat :=
    (nonblank.filter (fun l => startsWithAny (trimChars l.data) (docMarkers lang))).length
  if 0 < code_lines then (doc_lines : ℚ) / (code_lines : ℚ) else 0

/-! ## Quality scorer (`extractor.py` 77–195) -/

/-- A value stored in the scorer's metrics dictionary. -/
inductive MVal where
  | i (n : Int)
  | q (r : ℚ)
  | b (v : Bool)
deriving DecidableEq, Repr

/-- Metrics dictionary: association list in Python dict insertion order
(every key is assigned exactly once in the source). -/
abbrev Metrics := List (String × MVal)

/-- Dictionary lookup. -/
def mLookup (m : Metrics) (k : String) : Option MVal :=
  (m.find? (fun p => p.1 == k)).map (fun p => p.2)

/-- `metrics.get(k, d)` for an integer-valued key. -/
def mGetInt (m : Metrics) (k : String) (d : Int) : Int :=
  match mLookup m k with
  | some (MVal.i n) => n
  | _ => d

/-- `metrics.get(k, d)` for a rational-valued key. -/
def mGetQ (m : Metrics) (k : String) (d : ℚ) : ℚ :=
  match mLookup m k with
  | some (MVal.q r) => r
  | _ => d

/-- `metrics.get(k, d)` for a boolean-valued key. -/
def mGetBool (m : Metrics) (k : String) (d : Bool) : Bool :=
  match mLookup m k with
  | some (MVal.b v) => v
  | _ => d

/-- Maximum leading-whitespace width over the non-blank lines
(the `max_indent` loop of `extractor.py:175`). -/
def maxIndent (lines : List String) : Int :=
  lines.foldl (fun mi l => if !isBlank l then max mi (leadingWs l : Int) else mi) 0

/-- The body of `assess_quality_enhanced` before the final clamp: the running
score (which starts at the neutral 5) together with the metrics dictionary
in insertion order, excluding the final `final_score` entry. -/
def assessInner (code lang fragment_type : String) : Int × Metrics :=
  let lines := pySplitlines code
  let text := lowerStr code
  let line_count : Nat := (lines.filter (fun l => !isBlank l)).length
  let length_score : Int :=
    if 10 ≤ line_count ∧ line_count ≤ 50 then 2
    else if (5 ≤ line_count ∧ line_count < 10) ∨ (50 < line_count ∧ line_count ≤ 100) then 1
    else if 200 < line_count then -2
    else 0
  let doc_ratio := compute_documentation_ratio code lang
  let doc_adj : Int := if 15 / 100 < doc_ratio then 2 else if 5 / 100 < doc_ratio then 1 else 0
  let py_has_types := strContains code "->" || strContains code ": "
  let ts_has_types := strContains code ": " || strContains text "interface" || strContains text "type "
  let types_adj : Int :=
    if lang = "py" ∨ lang = "python" then (if py_has_types then 1 else 0)
    else if lang = "typescript" ∨ lang = "ts" then (if ts_has_types then 1 else 0)
    else 0
  let has_async := strContains text "async" || strContains text "await"
  let has_error_handling :=
    ["try", "catch", "except", "error", "throw"].any (fun kw => strContains text kw)
  let has_exports := strContains text "export"
  let has_todos := strContains text "todo" || strContains text "fixme" || strContains text "hack"
  let has_debug :=
    ["console.log", "print(", "println", "fmt.println", "debugger"].any
      (fun pat => strContains text pat)
  let is_test := strContains text "test" || strContains text "spec" || strContains text "describe"
  let test_adj : Int := if is_test && strContains (lowerStr fragment_type) "test" then 1 else 0
  let complexity := compute_complexity code lang
  let complexity_adj : Int :=
    if 15 < complexity then -2
    else if 10 < complexity then -1
    else if 3 ≤ complexity ∧ complexity ≤ 8 then 1
    else 0
  let max_indent := maxIndent lines
  let indent_adj : Int := if 24 < max_indent then -2 else if 16 < max_indent then -1 else 0
  let too_many_ifs := decide (10 < countOccs code "if")
  let score : Int :=
    5 + length_score + doc_adj + types_adj
      + (if has_async then 1 else 0)
      + (if has_error_handling then 1 else 0)
      + (if has_exports then 1 else 0)
      + (if has_todos then -1 else 0)
      + (if has_debug then -1 else 0)
      + test_adj + complexity_adj + indent_adj
      + (if too_many_ifs then -1 else 0)
  let metrics : Metrics :=
    [("line_count", MVal.i line_count), ("length_score", MVal.i length_score),
     ("doc_ratio", MVal.q doc_ratio)]
    ++ (if lang = "py" ∨ lang = "python" then [("has_types", MVal.b py_has_types)]
        else if lang = "typescript" ∨ lang = "ts" then [("has_types", MVal.b ts_has_types)]
        else [])
    ++ (if has_async then [("has_async", MVal.b true)] else [])
    ++ [("has_error_handling", MVal.b has_error_handling)]
    ++ (if has_exports then [("has_exports", MVal.b true)] else [])
    ++ [("has_todos", MVal.b has_todos), ("has_debug", MVal.b has_debug),
        ("is_test", MVal.b is_test), ("complexity", MVal.i complexity),
        ("max_indent", MVal.i max_indent)]
    ++ (if too_many_ifs then [("too_many_ifs", MVal.b true)] else [])
  (score, metrics)

/-- `assess_quality_enhanced(code, lang, fragment_type)` from
`extractor.py:77`: the clamped quality score in `[1, 10]` together with the
metrics dictionary. -/
def assess_quality_enhanced (code lang fragment_type : String) : Int × Metrics :=
  let (score, metrics) := assessInner code lang fragment_type
  let final_score := max 1 (min 10 score)
  (final_score, metrics ++ [("final_score", MVal.i final_score)])

/-! ## Configuration (`config.py` 16–92) -/

/-- The `Config` dataclass of `config.py:16` with its `__post_init__`
defaults.  `max_file_mb` is a Python float, modelled as a rational. -/
structure Config where
  exts : List String :=
    [".py", ".js", ".jsx", ".ts", ".tsx",
     ".go", ".rs", ".java", ".c", ".cpp", ".h", ".hpp",
     ".rb", ".php", ".swift", ".kt", ".scala"]
  ignore : List String :=
    [".git", "node_modules", "__pycache__", "venv", ".venv",
     "env", "build", "dist", ".idea", ".vscode", "target",
     "vendor", ".next", ".nuxt", "coverage"]
  inactive_days : Int := 60
  include_active : Bool := false
  max_file_mb : ℚ := 1
  min_quality : Int := 5
  min_lines : Int := 5
  max_lines : Int := 500
  skip_tests : Bool := false
  deduplicate : Bool := true
  organize_by_type : Bool := true
  create_readme : Bool := true
  create_tests : Bool := false
  include_deps : Bool := true
  dark_mode : Bool := false
  auto_save : Bool := true
  parallel_scan : Bool := true
  max_workers : Int := 4
  enable_cache : Bool := true
  cache_ttl_hours : Int := 24
deriving DecidableEq, Repr, Inhabited

/-- `Config.validate` from `config.py:73`: the list of validation issues, in
the order the source appends them. -/
def Config.validate (c : Config) : List String :=
  (if c.inactive_days < 0 then ["inactive_days must be >= 0"] else [])
  ++ (if c.max_file_mb ≤ 0 then ["max_file_mb must be > 0"] else [])
  ++ (if ¬(1 ≤ c.min_quality ∧ c.min_quality ≤ 10) then ["min_quality must be between 1-10"] else [])
  ++ (if c.min_lines < 1 then ["min_lines must be >= 1"] else [])
  ++ (if c.max_lines < c.min_lines then ["max_lines must be >= min_lines"] else [])
  ++ (if c.max_workers < 1 then ["max_workers must be >= 1"] else [])
  ++ (if c.cache_ttl_hours < 1 then ["cache_ttl_hours must be >= 1"] else [])

/-! ## Data model (`models.py` 56–135, 178–214) -/

/-- The `Fragment` dataclass of `models.py:56`, fields in source order.
`documentation_ratio` (a Python float) is a rational; `embedding_hash`
holds the semantic fingerprint once `compute_embedding_hash` has run. -/
structure Fragment where
  uid : String
  name : String
  type : String
  file : String
  project : String
  code : String
  lines : Nat
  quality : Int
  start_line : Int
  end_line : Int := 0
  dependencies : List String := []
  imports : List String := []
  exports : List String := []
  complexity : Int := 0
  documentation_ratio : ℚ := 0
  has_types : Bool := false
  has_tests : Bool := false
  has_error_handling : Bool := false
  tags : List String := []
  embedding_hash : Option String := none
  similar_fragments : List String := []
deriving DecidableEq, Repr, Inhabited

/-- `Fragment.code_hash` (`models.py:113`): the md5 digest of the code,
modelled by the digested text itself. -/
def Fragment.code_hash (f : Fragment) : String := f.code

/-- Code-point lexicographic order on character lists, the order Python
uses to compare strings. -/
def lexLe : List Char → List Char → Bool
  | [], _ => true
  | _ :: _, [] => false
  | a :: as, b :: bs =>
    if a.toNat < b.toNat then true
    else if b.toNat < a.toNat then false
    else lexLe as bs

/-- Python `s1 <= s2` on strings. -/
def strLe (a b : String) : Bool := lexLe a.data b.data

/-- Insert a string into an ascending list. -/
def insertStrAsc (x : String) : List String → List String
  | [] => [x]
  | y :: ys => if strLe x y then x :: y :: ys else y :: insertStrAsc x ys

/-- Python `sorted` on strings (insertion sort; the inputs it is applied to
are duplicate-free, so any correct sort gives Python's order). -/
def sortStrsAsc (l : List String) : List String :=
  l.foldr insertStrAsc []

/-- The `semantic_text` computed by `Fragment.compute_embedding_hash`
(`models.py:117`): lower-case, non-alphanumerics replaced by spaces, split
into words, unique words sorted, first 50 joined by spaces.  The md5 digest
of this text is modelled by the text itself. -/
def semanticText (code : String) : String :=
  let normalized := lowerStr code
  let normalized := ofChars (normalized.data.map (fun c => if c.isAlphanum then c else ' '))
  let words := pySplitWs normalized
  let word_set := sortStrsAsc words.eraseDups
  joinSep ' ' (word_set.take 50)

/-- `Fragment.compute_embedding_hash` (`models.py:117`) as a state update:
it stores the semantic fingerprint on the fragment and returns it. -/
def Fragment.compute_embedding_hash (f : Fragment) : String × Fragment :=
  let h := semanticText f.code
  (h, { f with embedding_hash := some h })

/-- The `ExtractionResult` of `models.py:178`; the wall-clock
`extraction_time` and `timestamp` fields are omitted. -/
structure ExtractionResult where
  fragments : List Fragment
deriving DecidableEq, Repr

/-- `stable_uid` from `utils.py:30`: the md5 digest (truncated to 16 hex
characters) of `"project:filename:line"`, modelled by the digested key
itself. -/
def stable_uid (project filename line : String) : String :=
  project ++ ":" ++ filename ++ ":" ++ line

/-! ## Python-dialect extraction (`extractor.py` 198–272)

`ast.parse` and `ast.walk` belong to the Python standard library, not to
this repository; they are modelled as oracle data: a parsed file is either
`none` (a `SyntaxError`, caught at `extractor.py:267`) or the list of
function/class/async-function definition nodes in `ast.walk` order, each
carrying the `lineno`/`end_lineno` the parser reported and the module names
collected by the import walk of `extractor.py:229-235`. -/

/-- Node kinds the extractor reacts to (`extractor.py:207`). -/
inductive PyKind where
  | functionDef
  | asyncFunctionDef
  | classDef
deriving DecidableEq, Repr

/-- An AST definition node as consumed by the extractor loop. -/
structure PyNode where
  name : String
  kind : PyKind
  lineno : Int
  end_lineno : Int
  imports : List String := []
deriving DecidableEq, Repr

/-- Fragment type tag (`extractor.py:221-226`). -/
def pyFragType : PyKind → String
  | PyKind.classDef => "PythonClass"
  | PyKind.asyncFunctionDef => "PythonAsyncFunc"
  | PyKind.functionDef => "PythonFunc"

/-- Clamp one Python slice endpoint into `[0, len]`, with negative indices
counting from the end. -/
def pySliceIdx (len : Nat) (i : Int) : Nat :=
  if i < 0 then (max 0 ((len : Int) + i)).toNat else (min i (len : Int)).toNat

/-- Python list slicing `l[a:b]` (step 1). -/
def pySlice {α : Type} (l : List α) (a b : Int) : List α :=
  (l.take (pySliceIdx l.length b)).drop (pySliceIdx l.length a)

/-- The body of the node loop of `extract_python_fragments`
(`extractor.py:208-265`): slice the block, apply the line-count filter and
the quality filter, and assemble the `Fragment`; `none` models `continue`
(no fragment for this node). -/
def processPyBlock (lines : List String) (node : PyNode)
    (filePath projectName : String) (cfg : Config) : Option Fragment :=
  let start : Int := node.lineno - 1
  let stop : Int := node.end_lineno
  if 0 ≤ start ∧ start < (lines.length : Int) ∧ stop ≤ (lines.length : Int) then
    let block_lines := pySlice lines start stop
    let block := joinSep '\n' block_lines
    if (block_lines.length : Int) < cfg.min_lines ∨ cfg.max_lines < (block_lines.length : Int) then
      none
    else
      let frag_type := pyFragType node.kind
      let (quality, metrics) := assess_quality_enhanced block "python" frag_type
      if quality < cfg.min_quality then none
      else
        some
          { uid := stable_uid projectName (pathName filePath) (toString start)
            name := node.name
            type := frag_type
            file := filePath
            project := projectName
            code := block
            lines := block_lines.length
            quality := quality
            start_line := start + 1
            end_line := stop
            imports := node.imports
            complexity := mGetInt metrics "complexity" 0
            documentation_ratio := mGetQ metrics "doc_ratio" 0
            has_types := mGetBool metrics "has_types" false
            has_error_handling := mGetBool metrics "has_error_handling" false
            has_tests := mGetBool metrics "is_test" false }
  else none

/-- `extract_python_fragments` (`extractor.py:198`): `tree = none` models a
`SyntaxError` from `ast.parse`, caught and turned into an empty result. -/
def extract_python_fragments (code : String) (tree : Option (List PyNode))
    (filePath projectName : String) (cfg : Config) : List Fragment :=
  match tree with
  | none => []
  | some nodes =>
    let lines := pySplitlines code
    nodes.filterMap (fun node => processPyBlock lines node filePath projectName cfg)

/-! ## Brace-dialect extraction (`extractor.py` 275–374)

The iteration of `re.finditer` over the four construct patterns of
`extract_js_fragments` is modelled as oracle data (`JsMatch`: the captured
name, the match start offset, and the fragment type associated with the
matching pattern); everything from `extractor.py:328` on — the start-line
computation, `extract_js_block`, the filters, the import/export scans and
the fragment assembly — is embedded directly. -/

/-- One `re.finditer` match of a construct pattern: captured name, the
character offset `match.start()`, and the pattern's fragment type
(`Function`, `Class`, `ArrowFunc` or `Component`). -/
structure JsMatch where
  name : String
  matchStart : Nat
  fragType : String
deriving DecidableEq, Repr

/-- Brace count of one line starting from `brace`, with a flag telling
whether an opening brace was seen (`extractor.py:284-289`). -/
def braceScanLine (l : String) (brace : Int) (seen : Bool) : Int × Bool :=
  l.data.foldl
    (fun (st : Int × Bool) ch =>
      if ch = obr then (st.1 + 1, true)
      else if ch = cbr then (st.1 - 1, st.2)
      else st)
    (brace, seen)

/-- The scan loop of `extract_js_block` (`extractor.py:297-308`): walk lines
`i, i+1, ...` for `fuel` iterations (`fuel = stop - i`, so the walk covers
`range(start_line + 1, stop)`), appending each line and updating the brace
depth, stopping early when the depth falls to `≤ 0`.  Returns the
accumulated block lines and the final `end_line`. -/
def jsScanLoop (lines : List String) : Nat → Int → List String → Nat → Nat → List String × Nat
  | 0, _, acc, endLine, _ => (acc, endLine)
  | fuel + 1, brace, acc, _, i =>
    let line := lines.getD i ""
    let acc' := acc ++ [line]
    let brace' := (braceScanLine line brace false).1
    if brace' ≤ 0 then (acc', i)
    else jsScanLoop lines fuel brace' acc' i (i + 1)

/-- `extract_js_block(lines, start_line)` from `extractor.py:275`. -/
def extract_js_block (lines : List String) (start_line : Nat) : String × Nat :=
  if lines.length ≤ start_line then ("", start_line)
  else
    let line := lines.getD start_line ""
    let (brace, seen_open) := braceScanLine line 0 false
    if !seen_open then (line, start_line)
    else
      let stop := min lines.length (start_line + 500)
      let (block, end_line) :=
        jsScanLoop lines (stop - (start_line + 1)) brace [line] start_line (start_line + 1)
      (joinSep '\n' block, end_line)

/-- Is this character matched by the regex class `\s`? -/
def isReWs (c : Char) : Bool :=
  c = ' ' || c = '\t' || c.toNat = 10 || c.toNat = 13 || c.toNat = 12 || c.toNat = 11

/-- Is this character a single or double quote (the class `['"]`)? -/
def isQuoteCh (c : Char) : Bool := c = sq || c = dq

/-- Match the tail `from\s+['"]([^'"]+)['"]` of the import regex at the head
of `cs`: on success return the captured module name and the characters
following the closing quote.  The greedy sub-matches are deterministic
because whitespace, quotes and the `[^'"]` class are disjoint. -/
def matchFromTail (cs : List Char) : Option (String × List Char) :=
  if ['f', 'r', 'o', 'm'].isPrefixOf cs then
    let rest := cs.drop 4
    let ws := rest.takeWhile isReWs
    if ws.isEmpty then none
    else
      match rest.drop ws.length with
      | [] => none
      | q1 :: afterQ =>
        if isQuoteCh q1 then
          let cap := afterQ.takeWhile (fun c => !isQuoteCh c)
          if cap.isEmpty then none
          else
            match afterQ.drop cap.length with
            | [] => none
            | q2 :: tail => if isQuoteCh q2 then some (ofChars cap, tail) else none
        else none
  else none

/-- The lazy `.*?from\s+['"]([^'"]+)['"]` search: try the tail at each
position, consuming only non-newline characters (`.` does not match `\n`). -/
def lazyScan : List Char → Option (String × List Char)
  | [] => none
  | c :: rest =>
    match matchFromTail (c :: rest) with
    | some r => some r
    | none => if c = '\n' then none else lazyScan rest

/-- Attempt the full import regex `import\s+.*?from\s+['"]([^'"]+)['"]` at
the head of `cs`. -/
def matchImportAt (cs : List Char) : Option (String × List Char) :=
  if ['i', 'm', 'p', 'o', 'r', 't'].isPrefixOf cs then
    let rest := cs.drop 6
    let ws := rest.takeWhile isReWs
    if ws.isEmpty then none else lazyScan (rest.drop ws.length)
  else none

/-- The `re.findall` scan: try the import regex at every position, skipping
one character on failure and continuing after the match on success. -/
def findImportsAux : Nat → List Char → List String
  | 0, _ => []
  | _ + 1, [] => []
  | fuel + 1, c :: rest =>
    match matchImportAt (c :: rest) with
    | some (cap, remaining) => cap :: findImportsAux fuel remaining
    | none => findImportsAux fuel rest

/-- `re.findall(r'import\s+.*?from\s+[\x27"]([^\x27"]+)[\x27"]', block)`
from `extractor.py:344`. -/
def findImports (block : String) : List String :=
  findImportsAux block.data.length block.data

/-- The `match.start()`-to-line conversion of `extractor.py:328`:
`code[:match.start()].count("\n")`. -/
def jsStartLine (code : String) (m : JsMatch) : Nat :=
  countOccs (takeChars code m.matchStart) "\n"

/-- The body of the match loop of `extract_js_fragments`
(`extractor.py:326-372`); `none` models `continue`. -/
def processJsMatch (code : String) (lines : List String) (m : JsMatch)
    (filePath projectName : String) (cfg : Config) : Option Fragment :=
  let start_line := jsStartLine code m
  let (block, end_line) := extract_js_block lines start_line
  let block_lines := pySplitlines block
  if (block_lines.length : Int) < cfg.min_lines ∨ cfg.max_lines < (block_lines.length : Int) then
    none
  else
    let (quality, metrics) := assess_quality_enhanced block "javascript" m.fragType
    if quality < cfg.min_quality then none
    else
      let imports := findImports block
      let exports := if strContains block "export" then [m.name] else []
      some
        { uid := stable_uid projectName (pathName filePath) (toString start_line)
          name := m.name
          type := "JS/" ++ m.fragType
          file := filePath
          project := projectName
          code := block
          lines := block_lines.length
          quality := quality
          start_line := (start_line : Int) + 1
          end_line := (end_line : Int) + 1
          imports := imports
          exports := exports
          complexity := mGetInt metrics "complexity" 0
          documentation_ratio := mGetQ metrics "doc_ratio" 0
          has_types := mGetBool metrics "has_types" false
          has_error_handling := mGetBool metrics "has_error_handling" false }

/-- `extract_js_fragments` (`extractor.py:313`): process the oracle match
sequence (pattern by pattern, match by match, as `re.finditer` yields them)
over `lines = code.splitlines()`. -/
def extract_js_fragments (code : String) (ms : List JsMatch)
    (filePath projectName : String) (cfg : Config) : List Fragment :=
  let lines := pySplitlines code
  ms.filterMap (fun m => processJsMatch code lines m filePath projectName cfg)

/-! ## Per-file dispatch and orchestration (`extractor.py` 377–494)

`safe_read_text` (`utils.py:10`) and the parser/regex oracles are carried
as per-file input data: `text = none` models a failed read, `pyAst` models
`ast.parse` for a `.py` file (`none` = `SyntaxError`), and `jsMatches`
models the `re.finditer` matches for a JS/TS file. -/

/-- One candidate source file together with its external-collaborator data. -/
structure FileInput where
  path : String
  text : Option String := none
  pyAst : Option (List PyNode) := none
  jsMatches : List JsMatch := []
deriving DecidableEq, Repr

/-- The slice of the `Project` dataclass (`models.py:9`) the extraction core
reads: the project name and its candidate code files. -/
structure ProjectE where
  name : String
  code_files : List FileInput
deriving DecidableEq, Repr

/-- `extract_from_file` (`extractor.py:377`): skip unreadable or empty
files (`if not code`), dispatch on the path suffix, return `[]` for
unrecognised dialects. -/
def extract_from_file (file : FileInput) (project : ProjectE) (cfg : Config) : List Fragment :=
  match file.text with
  | none => []
  | some code =>
    if code = "" then []
    else if pathSuffix file.path = ".py" then
      extract_python_fragments code file.pyAst file.path project.name cfg
    else if pathSuffix file.path ∈ [".js", ".jsx", ".ts", ".tsx"] then
      extract_js_fragments code file.jsMatches file.path project.name cfg
    else []

/-- The loop of `deduplicate_fragments` (`extractor.py:406-422`) with the
two seen-sets made explicit.  A kept fragment has had
`compute_embedding_hash` called on it, which stores the semantic
fingerprint (`models.py:125`). -/
def dedupGo (seenExact seenSemantic : List String) : List Fragment → List Fragment
  | [] => []
  | f :: fs =>
    if f.code_hash ∈ seenExact then dedupGo seenExact seenSemantic fs
    else
      let (semantic_hash, f') := f.compute_embedding_hash
      if semantic_hash ∈ seenSemantic then dedupGo seenExact seenSemantic fs
      else f' :: dedupGo (f.code_hash :: seenExact) (semantic_hash :: seenSemantic) fs

/-- `deduplicate_fragments` (`extractor.py:398`): drop exact duplicates
(same code digest) and semantic duplicates (same semantic fingerprint),
first occurrence winning. -/
def deduplicate_fragments (fragments : List Fragment) : List Fragment :=
  dedupGo [] [] fragments

/-- Python's tuple comparison `(f.quality, f.lines) < (g.quality, g.lines)`,
the key order of the final sort (`extractor.py:483`). -/
def fragKeyLt (f g : Fragment) : Bool :=
  f.quality < g.quality || (f.quality == g.quality && f.lines < g.lines)

/-- Insert into a descending-sorted list, after any equal keys (the
placement a stable descending sort gives a later element). -/
def insertDesc (f : Fragment) : List Fragment → List Fragment
  | [] => [f]
  | g :: gs => if fragKeyLt g f then f :: g :: gs else g :: insertDesc f gs

/-- `fragments.sort(key=lambda f: (f.quality, f.lines), reverse=True)`:
a stable descending sort by the `(quality, lines)` key. -/
def sortFragments (l : List Fragment) : List Fragment :=
  l.foldl (fun acc f => insertDesc f acc) []

/-- The aggregation loop of `extract_fragments_parallel`
(`extractor.py:437-457`): per-file extraction over all files of all
projects.  This is the sequential branch of the source; the parallel branch
computes the same per-file lists and differs only in the (unspecified)
aggregation order of `as_completed`. -/
def rawFragments (projects : List ProjectE) (cfg : Config) : List Fragment :=
  projects.flatMap (fun p => p.code_files.flatMap (fun f => extract_from_file f p cfg))

/-- `total_files = sum(len(p.code_files) for p in projects)`
(`extractor.py:433`). -/
def totalFiles (projects : List ProjectE) : Nat :=
  (projects.map (fun p => p.code_files.length)).sum

/-- The deduplication and test-filter stages of `extract_fragments_parallel`
(`extractor.py:461-471`). -/
def postFilter (cfg : Config) (all_fragments : List Fragment) : List Fragment :=
  let all_fragments :=
    if cfg.deduplicate then deduplicate_fragments all_fragments else all_fragments
  if cfg.skip_tests then all_fragments.filter (fun f => !f.has_tests) else all_fragments

/-- The fragment list `extract_fragments_parallel` (`extractor.py:428`)
produces when it does not raise: aggregate, then deduplicate if configured,
then filter tests if configured.  Both branches of the source produce this
list; the one failure mode of the function — the `ValueError` that
`ThreadPoolExecutor(max_workers=config.max_workers)` (`extractor.py:439`)
raises when the parallel branch is taken with `max_workers <= 0` — is
modelled by `extract_fragments_parallel_checked` below. -/
def extract_fragments_parallel (projects : List ProjectE) (cfg : Config) : List Fragment :=
  postFilter cfg (rawFragments projects cfg)

/-- `extract_fragments_parallel` (`extractor.py:428`) with its failure mode:
the parallel branch is taken when `config.parallel_scan and total_files > 10`
(`extractor.py:437`), and constructing
`ThreadPoolExecutor(max_workers=config.max_workers)` (`extractor.py:439`)
raises `ValueError("max_workers must be greater than 0")` — CPython's
`concurrent.futures` contract — when `max_workers <= 0`; the exception is
not caught anywhere in `extractor.py`, so it aborts the whole call.  In
every other case the function returns the aggregated, deduplicated,
test-filtered list (the aggregation order of `as_completed` is modelled as
the sequential file order, the convention stated on `rawFragments`). -/
def extract_fragments_parallel_checked (projects : List ProjectE) (cfg : Config) :
    Except String (List Fragment) :=
  if cfg.parallel_scan = true ∧ 10 < totalFiles projects then
    if cfg.max_workers ≤ 0 then Except.error "max_workers must be greater than 0"
    else Except.ok (extract_fragments_parallel projects cfg)
  else Except.ok (extract_fragments_parallel projects cfg)

/-- `extract_fragments` (`extractor.py:474`), the extraction entry point:
run the pipeline and sort the fragments by `(quality, lines)` descending.
It performs no configuration validation.  This is the result of the
non-raising runs; `extract_fragments_checked` adds the one exception path
the entry point has (propagated from `extract_fragments_parallel`). -/
def extract_fragments (projects : List ProjectE) (cfg : Config) : ExtractionResult :=
  { fragments := sortFragments (extract_fragments_parallel projects cfg) }

/-- `extract_fragments` (`extractor.py:474`) with the propagated
`ThreadPoolExecutor` failure: the entry point wraps no try/except, so the
`ValueError` from the fan-out aborts the call; otherwise the sorted result
is returned. -/
def extract_fragments_checked (projects : List ProjectE) (cfg : Config) :
    Except String ExtractionResult :=
  match extract_fragments_parallel_checked projects cfg with
  | Except.error e => Except.error e
  | Except.ok fragments => Except.ok { fragments := sortFragments fragments }

/-! ## Helper lemmas -/

theorem assess_fst_eq_clamp (code lang ftype : String) :
    (assess_quality_enhanced code lang ftype).1 =
      max 1 (min 10 (assessInner code lang ftype).1) := by
  unfold assess_quality_enhanced
  rcases assessInner code lang ftype with ⟨s, m⟩
  rfl

/-- The in-place `embedding_hash` mutation `compute_embedding_hash` performs
on a fragment it is called on (`models.py:125`). -/
def ehSet (f : Fragment) : Fragment := f.compute_embedding_hash.2

/-- The semantic fingerprint key of a fragment. -/
def semKey (f : Fragment) : String := semanticText f.code

theorem ehSet_code (f : Fragment) : (ehSet f).code = f.code := rfl

theorem ehSet_idem (f : Fragment) : ehSet (ehSet f) = ehSet f := rfl

theorem code_hash_ehSet (f : Fragment) : (ehSet f).code_hash = f.code_hash := rfl

theorem semKey_ehSet (f : Fragment) : semKey (ehSet f) = semKey f := rfl

theorem dedupGo_cons (s e : List String) (f : Fragment) (fs : List Fragment) :
    dedupGo s e (f :: fs) =
      if f.code_hash ∈ s then dedupGo s e fs
      else if semKey f ∈ e then dedupGo s e fs
      else ehSet f :: dedupGo (f.code_hash :: s) (semKey f :: e) fs := by
  by_cases h1 : f.code_hash ∈ s <;> by_cases h2 : semKey f ∈ e <;>
    simp [dedupGo, Fragment.compute_embedding_hash, h1, h2, ehSet, semKey]

theorem dedupGo_mem {s e : List String} {l : List Fragment} {f' : Fragment}
    (h : f' ∈ dedupGo s e l) : ∃ f ∈ l, f' = ehSet f := by
  induction l generalizing s e with
  | nil => simp [dedupGo] at h
  | cons f fs ih =>
    rw [dedupGo_cons] at h
    by_cases h1 : f.code_hash ∈ s
    · simp only [if_pos h1] at h
      obtain ⟨g, hg, hfg⟩ := ih h
      exact ⟨g, List.mem_cons_of_mem _ hg, hfg⟩
    · simp only [if_neg h1] at h
      by_cases h2 : semKey f ∈ e
      · simp only [if_pos h2] at h
        obtain ⟨g, hg, hfg⟩ := ih h
        exact ⟨g, List.mem_cons_of_mem _ hg, hfg⟩
      · simp only [if_neg h2, List.mem_cons] at h
        rcases h with h | h
        · exact ⟨f, List.mem_cons_self _ _, h⟩
        · obtain ⟨g, hg, hfg⟩ := ih h
          exact ⟨g, List.mem_cons_of_mem _ hg, hfg⟩

theorem dedupGo_keys_notin {s e : List String} {l : List Fragment} {f' : Fragment}
    (h : f' ∈ dedupGo s e l) : f'.code_hash ∉ s ∧ semKey f' ∉ e := by
  induction l generalizing s e with
  | nil => simp [dedupGo] at h
  | cons f fs ih =>
    rw [dedupGo_cons] at h
    by_cases h1 : f.code_hash ∈ s
    · simp only [if_pos h1] at h
      exact ih h
    · simp only [if_neg h1] at h
      by_cases h2 : semKey f ∈ e
      · simp only [if_pos h2] at h
        exact ih h
      · simp only [if_neg h2, List.mem_cons] at h
        rcases h with h | h
        · subst h
          exact ⟨by rw [code_hash_ehSet]; exact h1, by rw [semKey_ehSet]; exact h2⟩
        · have := ih h
          exact ⟨fun hc => this.1 (List.mem_cons_of_mem _ hc),
                 fun hc => this.2 (List.mem_cons_of_mem _ hc)⟩

theorem dedupGo_pairwise (s e : List String) (l : List Fragment) :
    (dedupGo s e l).Pairwise
      (fun a b => a.code_hash ≠ b.code_hash ∧ semKey a ≠ semKey b) := by
  induction l generalizing s e with
  | nil => simp [dedupGo]
  | cons f fs ih =>
    rw [dedupGo_cons]
    by_cases h1 : f.code_hash ∈ s
    · simp only [if_pos h1]; exact ih s e
    · simp only [if_neg h1]
      by_cases h2 : semKey f ∈ e
      · simp only [if_pos h2]; exact ih s e
      · simp only [if_neg h2]
        refine List.pairwise_cons.mpr ⟨fun b hb => ?_, ih _ _⟩
        have hkeys := dedupGo_keys_notin hb
        constructor
        · rw [code_hash_ehSet]
          intro hc
          exact hkeys.1 (hc ▸ List.mem_cons_self _ _)
        · rw [semKey_ehSet]
          intro hc
          exact hkeys.2 (hc ▸ List.mem_cons_self _ _)

theorem dedupGo_fixed {l : List Fragment} {s e : List String}
    (h1 : ∀ f ∈ l, f.code_hash ∉ s ∧ semKey f ∉ e)
    (h2 : l.Pairwise (fun a b => a.code_hash ≠ b.code_hash ∧ semKey a ≠ semKey b))
    (h3 : ∀ f ∈ l, ehSet f = f) :
    dedupGo s e l = l := by
  induction l generalizing s e with
  | nil => simp [dedupGo]
  | cons f fs ih =>
    obtain ⟨hk1, hk2⟩ := h1 f (List.mem_cons_self _ _)
    obtain ⟨hpf, hpfs⟩ := List.pairwise_cons.mp h2
    rw [dedupGo_cons, if_neg hk1, if_neg hk2, h3 f (List.mem_cons_self _ _)]
    congr 1
    refine ih (fun g hg => ?_) hpfs (fun g hg => h3 g (List.mem_cons_of_mem _ hg))
    constructor
    · simp only [List.mem_cons]
      rintro (hc | hc)
      · exact (hpf g hg).1 hc.symm
      · exact (h1 g (List.mem_cons_of_mem _ hg)).1 hc
    · simp only [List.mem_cons]
      rintro (hc | hc)
      · exact (hpf g hg).2 hc.symm
      · exact (h1 g (List.mem_cons_of_mem _ hg)).2 hc

theorem dedupGo_sublist (s e : List String) (l : List Fragment) :
    (dedupGo s e l).Sublist (l.map ehSet) := by
  induction l generalizing s e with
  | nil => simp [dedupGo]
  | cons f fs ih =>
    rw [dedupGo_cons]
    by_cases h1 : f.code_hash ∈ s
    · simp only [if_pos h1, List.map_cons]
      exact (ih s e).cons _
    · simp only [if_neg h1]
      by_cases h2 : semKey f ∈ e
      · simp only [if_pos h2, List.map_cons]
        exact (ih s e).cons _
      · simp only [if_neg h2, List.map_cons]
        exact (ih _ _).cons₂ _

theorem deduplicate_idem (l : List Fragment) :
    deduplicate_fragments (deduplicate_fragments l) = deduplicate_fragments l := by
  unfold deduplicate_fragments
  refine dedupGo_fixed (fun f hf => ⟨List.not_mem_nil _, List.not_mem_nil _⟩)
    (dedupGo_pairwise [] [] l) (fun f hf => ?_)
  obtain ⟨g, _, rfl⟩ := dedupGo_mem hf
  exact ehSet_idem g

theorem fragKeyLt_iff (a b : Fragment) :
    fragKeyLt a b = true ↔
      (a.quality < b.quality ∨ (a.quality = b.quality ∧ a.lines < b.lines)) := by
  simp [fragKeyLt, Bool.or_eq_true, Bool.and_eq_true, beq_iff_eq, decide_eq_true_eq]

theorem fragKeyLt_false_iff (a b : Fragment) :
    fragKeyLt a b = false ↔
      (b.quality < a.quality ∨ (b.quality = a.quality ∧ b.lines ≤ a.lines)) := by
  rw [← Bool.not_eq_true, fragKeyLt_iff]
  omega

theorem insertDesc_perm (f : Fragment) (l : List Fragment) :
    (insertDesc f l).Perm (f :: l) := by
  induction l with
  | nil => simp [insertDesc]
  | cons g gs ih =>
    rw [insertDesc]
    by_cases h : fragKeyLt g f
    · rw [if_pos h]
    · rw [if_neg h]
      exact (ih.cons g).trans (List.Perm.swap f g gs)

theorem mem_insertDesc {x f : Fragment} {l : List Fragment} :
    x ∈ insertDesc f l ↔ x = f ∨ x ∈ l := by
  rw [(insertDesc_perm f l).mem_iff, List.mem_cons]

theorem insertDesc_pairwise {f : Fragment} {l : List Fragment}
    (h : l.Pairwise (fun a b => fragKeyLt a b = false)) :
    (insertDesc f l).Pairwise (fun a b => fragKeyLt a b = false) := by
  induction l with
  | nil => simp [insertDesc]
  | cons g gs ih =>
    obtain ⟨hg, hgs⟩ := List.pairwise_cons.mp h
    rw [insertDesc]
    by_cases hlt : fragKeyLt g f
    · rw [if_pos hlt]
      refine List.pairwise_cons.mpr ⟨?_, h⟩
      intro b hb
      rcases List.mem_cons.mp hb with rfl | hb
      · rw [fragKeyLt_false_iff]
        rw [fragKeyLt_iff] at hlt
        omega
      · have hgb := hg b hb
        rw [fragKeyLt_false_iff] at hgb ⊢
        rw [fragKeyLt_iff] at hlt
        omega
    · rw [if_neg hlt]
      refine List.pairwise_cons.mpr ⟨?_, ih hgs⟩
      intro b hb
      rcases mem_insertDesc.mp hb with rfl | hb
      · simpa using hlt
      · exact hg b hb

theorem sortFragments_perm (l : List Fragment) : (sortFragments l).Perm l := by
  suffices h : ∀ (l acc : List Fragment),
      (l.foldl (fun a f => insertDesc f a) acc).Perm (acc ++ l) by
    simpa using h l []
  intro l
  induction l with
  | nil => simp
  | cons f rest ih =>
    intro acc
    simp only [List.foldl_cons]
    refine (ih (insertDesc f acc)).trans ?_
    refine (List.Perm.append_right rest (insertDesc_perm f acc)).trans ?_
    simpa using List.perm_middle.symm

theorem sortFragments_sorted (l : List Fragment) :
    (sortFragments l).Pairwise (fun a b => fragKeyLt a b = false) := by
  suffices h : ∀ (l acc : List Fragment),
      acc.Pairwise (fun a b => fragKeyLt a b = false) →
      (l.foldl (fun a f => insertDesc f a) acc).Pairwise (fun a b => fragKeyLt a b = false) by
    exact h l [] (by simp)
  intro l
  induction l with
  | nil => intro acc h; simpa using h
  | cons f rest ih =>
    intro acc h
    simp only [List.foldl_cons]
    exact ih _ (insertDesc_pairwise h)

theorem mem_sortFragments {f : Fragment} {l : List Fragment} :
    f ∈ sortFragments l ↔ f ∈ l :=
  (sortFragments_perm l).mem_iff

theorem mem_postFilter {f : Fragment} {cfg : Config} {l : List Fragment}
    (h : f ∈ postFilter cfg l) : ∃ g ∈ l, f = g ∨ f = ehSet g := by
  unfold postFilter at h
  by_cases hskip : cfg.skip_tests
  · simp only [hskip, if_pos] at h
    have h' := List.mem_of_mem_filter h
    by_cases hd : cfg.deduplicate
    · simp only [hd, if_pos] at h'
      obtain ⟨g, hg, rfl⟩ := dedupGo_mem h'
      exact ⟨g, hg, Or.inr rfl⟩
    · simp only [hd, Bool.false_eq_true, ite_false] at h'
      exact ⟨f, h', Or.inl rfl⟩
  · simp only [hskip, Bool.false_eq_true, ite_false] at h
    by_cases hd : cfg.deduplicate
    · simp only [hd, if_pos] at h
      obtain ⟨g, hg, rfl⟩ := dedupGo_mem h
      exact ⟨g, hg, Or.inr rfl⟩
    · simp only [hd, Bool.false_eq_true, ite_false] at h
      exact ⟨f, h, Or.inl rfl⟩

theorem mem_extract_fragments {f : Fragment} {ps : List ProjectE} {cfg : Config}
    (h : f ∈ (extract_fragments ps cfg).fragments) :
    ∃ g ∈ rawFragments ps cfg, f = g ∨ f = ehSet g := by
  unfold extract_fragments at h
  simp only at h
  rw [mem_sortFragments] at h
  exact mem_postFilter h

deriving instance DecidableEq for Except

theorem extract_fragments_parallel_checked_eq (ps : List ProjectE) (cfg : Config)
    (h : ¬(cfg.parallel_scan = true ∧ 10 < totalFiles ps ∧ cfg.max_workers ≤ 0)) :
    extract_fragments_parallel_checked ps cfg =
      Except.ok (extract_fragments_parallel ps cfg) := by
  unfold extract_fragments_parallel_checked
  by_cases h1 : cfg.parallel_scan = true ∧ 10 < totalFiles ps
  · have h2 : ¬cfg.max_workers ≤ 0 := fun hc => h ⟨h1.1, h1.2, hc⟩
    rw [if_pos h1, if_neg h2]
  · rw [if_neg h1]

theorem extract_fragments_checked_eq (ps : List ProjectE) (cfg : Config)
    (h : ¬(cfg.parallel_scan = true ∧ 10 < totalFiles ps ∧ cfg.max_workers ≤ 0)) :
    extract_fragments_checked ps cfg = Except.ok (extract_fragments ps cfg) := by
  unfold extract_fragments_checked
  rw [extract_fragments_parallel_checked_eq ps cfg h]
  rfl

theorem extract_fragments_checked_error {ps : List ProjectE} {cfg : Config} {e : String}
    (h : extract_fragments_checked ps cfg = Except.error e) :
    e = "max_workers must be greater than 0" ∧
      cfg.parallel_scan = true ∧ 10 < totalFiles ps ∧ cfg.max_workers ≤ 0 := by
  by_cases hc : cfg.parallel_scan = true ∧ 10 < totalFiles ps ∧ cfg.max_workers ≤ 0
  · refine ⟨?_, hc⟩
    unfold extract_fragments_checked extract_fragments_parallel_checked at h
    rw [if_pos ⟨hc.1, hc.2.1⟩, if_pos hc.2.2] at h
    simp only [Except.error.injEq] at h
    exact h.symm
  · rw [extract_fragments_checked_eq ps cfg hc] at h
    cases h

/-- The concrete failure the program has at an invalid configuration:
`max_workers = 0` with `parallel_scan` on and 11 files takes the parallel
branch and dies on `ThreadPoolExecutor` construction — an uncaught
`ValueError`, not a configuration-validation error. -/
theorem extract_fragments_checked_pool_error :
    extract_fragments_checked
        [⟨"p", List.replicate 11 ⟨"m.py", none, none, []⟩⟩] { max_workers := 0 } =
      Except.error "max_workers must be greater than 0" := by
  decide

set_option maxHeartbeats 1000000 in
theorem processPyBlock_fields {lines : List String} {node : PyNode} {fp pn : String}
    {cfg : Config} {f : Fragment}
    (h : processPyBlock lines node fp pn cfg = some f) :
    f.uid = stable_uid pn (pathName fp) (toString (node.lineno - 1)) ∧
      f.project = pn ∧ f.file = fp ∧ f.start_line = node.lineno - 1 + 1 ∧
      f.code = joinSep '\n' (pySlice lines (node.lineno - 1) node.end_lineno) ∧
      f.lines = (pySlice lines (node.lineno - 1) node.end_lineno).length ∧
      f.has_tests = mGetBool (assess_quality_enhanced
        (joinSep '\n' (pySlice lines (node.lineno - 1) node.end_lineno)) "python"
        (pyFragType node.kind)).2 "is_test" false := by
  simp only [processPyBlock] at h
  split_ifs at h
  all_goals try (cases h)
  all_goals exact ⟨rfl, rfl, rfl, rfl, rfl, rfl, rfl⟩

set_option maxHeartbeats 1000000 in
theorem processJsMatch_fields {code : String} {lines : List String} {m : JsMatch}
    {fp pn : String} {cfg : Config} {f : Fragment}
    (h : processJsMatch code lines m fp pn cfg = some f) :
    f.uid = stable_uid pn (pathName fp) (toString (jsStartLine code m)) ∧
      f.project = pn ∧ f.file = fp ∧
      f.start_line = (jsStartLine code m : Int) + 1 ∧
      f.lines = (pySplitlines f.code).length ∧
      f.has_tests = false := by
  simp only [processJsMatch] at h
  split_ifs at h
  all_goals try (cases h)
  all_goals exact ⟨rfl, rfl, rfl, rfl, rfl, rfl⟩

/-- The uid relation every pipeline fragment satisfies: the uid is
`stable_uid` of the fragment's project, file basename and 0-based start
line, so it is a function of that triple only. -/
def uidKeyed (f : Fragment) : Prop :=
  f.uid = stable_uid f.project (pathName f.file) (toString (f.start_line - 1))


theorem extract_from_file_uidKeyed (file : FileInput) (proj : ProjectE) (cfg : Config) :
    ∀ f ∈ extract_from_file file proj cfg, uidKeyed f := by
  intro f hf
  unfold extract_from_file at hf
  rcases ht : file.text with _ | code
  · rw [ht] at hf; cases hf
  · rw [ht] at hf
    simp only at hf
    by_cases hempty : code = ""
    · rw [if_pos hempty] at hf; cases hf
    · rw [if_neg hempty] at hf
      by_cases hpy : pathSuffix file.path = ".py"
      · rw [if_pos hpy] at hf
        unfold extract_python_fragments at hf
        rcases hast : file.pyAst with _ | nodes
        · rw [hast] at hf; cases hf
        · rw [hast] at hf
          simp only at hf
          obtain ⟨node, _, hsome⟩ := List.mem_filterMap.mp hf
          obtain ⟨hu, hproj, hfile, hsl, _⟩ := processPyBlock_fields hsome
          unfold uidKeyed
          rw [hu, hproj, hfile, hsl]
          have harith : node.lineno - 1 + 1 - 1 = node.lineno - 1 := by omega
          rw [harith]
      · rw [if_neg hpy] at hf
        by_cases hjs : pathSuffix file.path ∈ [".js", ".jsx", ".ts", ".tsx"]
        · rw [if_pos hjs] at hf
          unfold extract_js_fragments at hf
          obtain ⟨mm, _, hsome⟩ := List.mem_filterMap.mp hf
          obtain ⟨hu, hproj, hfile, hsl, _, _⟩ := processJsMatch_fields hsome
          unfold uidKeyed
          rw [hu, hproj, hfile, hsl]
          have harith : ((jsStartLine code mm : Int) + 1 - 1) = (jsStartLine code mm : Int) := by
            omega
          rw [harith]
          rfl
        · rw [if_neg hjs] at hf; cases hf

theorem rawFragments_uidKeyed (ps : List ProjectE) (cfg : Config) :
    ∀ f ∈ rawFragments ps cfg, uidKeyed f := by
  intro f hf
  unfold rawFragments at hf
  obtain ⟨p, _, hp⟩ := List.mem_flatMap.mp hf
  obtain ⟨file, _, hfile⟩ := List.mem_flatMap.mp hp
  exact extract_from_file_uidKeyed file p cfg f hfile

theorem extract_fragments_uidKeyed (ps : List ProjectE) (cfg : Config) :
    ∀ f ∈ (extract_fragments ps cfg).fragments, uidKeyed f := by
  intro f hf
  obtain ⟨g, hgraw, hfg⟩ := mem_extract_fragments hf
  have hg := rawFragments_uidKeyed ps cfg g hgraw
  rcases hfg with rfl | rfl
  · exact hg
  · exact hg

/-! ## Claims -/

section ClaimProofs

attribute [local semireducible] Rat.mul Rat.inv Rat.add Rat.sub

/-- C1: for every input string, dialect and fragment kind, the quality
scorer `assess_quality_enhanced` returns an integer score in `[1, 10]`
inclusive — in particular for the empty string, whitespace-only and
comment-only input, which are instances of the universally quantified
`code`. -/
theorem claim_C1 (code lang fragment_type : String) :
    1 ≤ (assess_quality_enhanced code lang fragment_type).1 ∧
      (assess_quality_enhanced code lang fragment_type).1 ≤ 10 := by
  rw [assess_fst_eq_clamp]
  omega

/-- C10: the quality scorer is a pure deterministic function of its inputs:
two calls with equal `(code, dialect, fragmentKind)` return the identical
`(score, metrics)` pair. -/
theorem claim_C10 (c₁ l₁ t₁ c₂ l₂ t₂ : String)
    (hc : c₁ = c₂) (hl : l₁ = l₂) (ht : t₁ = t₂) :
    assess_quality_enhanced c₁ l₁ t₁ = assess_quality_enhanced c₂ l₂ t₂ := by
  subst hc; subst hl; subst ht; rfl

/-- Witness for C10 at a concrete input. -/
theorem claim_C10_witness :
    ("x = 5" = "x = 5") ∧
      assess_quality_enhanced "x = 5" "python" "PythonFunc" =
        assess_quality_enhanced "x = 5" "python" "PythonFunc" :=
  ⟨rfl, claim_C10 "x = 5" "python" "PythonFunc" "x = 5" "python" "PythonFunc" rfl rfl rfl⟩

/-- C5: deduplication is idempotent — applying `deduplicate_fragments` to
its own output returns it unchanged; moreover the output is a subsequence
of the input (each survivor being the input fragment with its
`embedding_hash` stored by `compute_embedding_hash`), no two survivors
share an exact or semantic key, and the first fragment of the list always
survives while the rest is processed with the first fragment's exact and
semantic keys recorded as seen — so any later duplicate of either key is
dropped (first occurrence wins). -/
theorem claim_C5 (l : List Fragment) :
    deduplicate_fragments (deduplicate_fragments l) = deduplicate_fragments l ∧
      (deduplicate_fragments l).Sublist (l.map ehSet) ∧
      (deduplicate_fragments l).Pairwise
        (fun a b => a.code_hash ≠ b.code_hash ∧ semKey a ≠ semKey b) ∧
      ∀ (f : Fragment) (rest : List Fragment),
        deduplicate_fragments (f :: rest) =
          ehSet f :: dedupGo [f.code_hash] [semKey f] rest := by
  refine ⟨deduplicate_idem l, dedupGo_sublist [] [] l, dedupGo_pairwise [] [] l,
    fun f rest => ?_⟩
  unfold deduplicate_fragments
  rw [dedupGo_cons]
  simp

/-- One of the fragments of C3's concrete example: quality `q`, `n` lines,
all other fields defaulted. -/
def exFrag (q : Int) (n : Nat) : Fragment :=
  { uid := "", name := "", type := "", file := "", project := "", code := "",
    lines := n, quality := q, start_line := 0 }

/-- C3: the fragments of every returned `ExtractionResult` are sorted
descending by the key `(quality, lines)` — pairwise, no later fragment has
a strictly greater key — and are a permutation of the pipeline output; and
on the spec's concrete example (qualities `[6, 9, 9]`, line counts
`[40, 10, 50]`) the sort's output order is quality 9/lines 50, quality
9/lines 10, quality 6/lines 40. -/
theorem claim_C3 :
    (∀ (ps : List ProjectE) (cfg : Config),
        ((extract_fragments ps cfg).fragments).Pairwise (fun a b => fragKeyLt a b = false) ∧
        ((extract_fragments ps cfg).fragments).Perm (extract_fragments_parallel ps cfg)) ∧
      sortFragments [exFrag 6 40, exFrag 9 10, exFrag 9 50] =
        [exFrag 9 50, exFrag 9 10, exFrag 6 40] := by
  refine ⟨fun ps cfg => ⟨sortFragments_sorted _, sortFragments_perm _⟩, ?_⟩
  decide

/-- A config with `min_lines = 5` (the claim's value) and the quality gate
lowered so only the line filter decides. -/
def cfgMin5 : Config := { min_lines := 5, min_quality := 1 }

/-- A config whose line filter drops blocks of fewer than 6 lines. -/
def cfgMin6 : Config := { min_lines := 6, min_quality := 1 }

/-- A permissive config (`min_lines = 1`, `min_quality = 1`). -/
def cfgLoose : Config := { min_lines := 1, min_quality := 1 }

/-- A function node spanning lines 1–5. -/
def nodeF5 : PyNode :=
  { name := "f", kind := PyKind.functionDef, lineno := 1, end_lineno := 5 }

/-- A 5-line block: 3 non-blank lines and 2 blank lines. -/
def blankyLines : List String := ["def f():", "", "    a()", "", "    b()"]

/-- A readable, parseable Python file input. -/
def blankyFile : FileInput :=
  { path := "m.py", text := some "def f():\n\n    a()\n\n    b()", pyAst := some [nodeF5] }

/-- C2 counterexample: a block whose 5 physical lines contain only 3
non-blank lines is NOT discarded under `min_lines = 5` — the filter counts
all physical lines, while the claim says a block with 3 non-blank lines is
dropped regardless of its blank lines.  The block also survives a whole
extraction run over a file containing it. -/
theorem claim_C2_counterexample :
    ((blankyLines.filter (fun l => !isBlank l)).length = 3 ∧ cfgMin5.min_lines = 5) ∧
      (processPyBlock blankyLines nodeF5 "m.py" "p" cfgMin5).isSome = true ∧
      (extract_fragments [⟨"p", [blankyFile]⟩] cfgMin5).fragments.length = 1 := by
  decide

/-- C2 amended: in both dialects the post-extraction filter discards the
block exactly when its TOTAL physical line count (blank lines included)
falls outside `[min_lines, max_lines]` — for the structured dialect the
length of the slice `lines[start:end]` (for an in-bounds node), for the
brace dialect the `splitlines` length of the brace-matched block — and
blocks inside the range are discarded exactly when their quality is below
`min_quality`. -/
theorem claim_C2 (lines : List String) (node : PyNode) (fp pn : String) (cfg : Config)
    (hb : 0 ≤ node.lineno - 1 ∧ node.lineno - 1 < (lines.length : Int) ∧
          node.end_lineno ≤ (lines.length : Int)) :
    ((((pySlice lines (node.lineno - 1) node.end_lineno).length : Int) < cfg.min_lines ∨
      cfg.max_lines < ((pySlice lines (node.lineno - 1) node.end_lineno).length : Int)) →
      processPyBlock lines node fp pn cfg = none) ∧
    (cfg.min_lines ≤ ((pySlice lines (node.lineno - 1) node.end_lineno).length : Int) ∧
      ((pySlice lines (node.lineno - 1) node.end_lineno).length : Int) ≤ cfg.max_lines →
      (processPyBlock lines node fp pn cfg = none ↔
        (assess_quality_enhanced
          (joinSep '\n' (pySlice lines (node.lineno - 1) node.end_lineno))
          "python" (pyFragType node.kind)).1 < cfg.min_quality)) ∧
    (∀ (code : String) (jsLines : List String) (m : JsMatch) (fp2 pn2 : String),
      ((((pySplitlines (extract_js_block jsLines (jsStartLine code m)).1).length : Int) <
          cfg.min_lines ∨
        cfg.max_lines <
          ((pySplitlines (extract_js_block jsLines (jsStartLine code m)).1).length : Int)) →
        processJsMatch code jsLines m fp2 pn2 cfg = none) ∧
      (cfg.min_lines ≤
          ((pySplitlines (extract_js_block jsLines (jsStartLine code m)).1).length : Int) ∧
        ((pySplitlines (extract_js_block jsLines (jsStartLine code m)).1).length : Int) ≤
          cfg.max_lines →
        (processJsMatch code jsLines m fp2 pn2 cfg = none ↔
          (assess_quality_enhanced (extract_js_block jsLines (jsStartLine code m)).1
            "javascript" m.fragType).1 < cfg.min_quality))) := by
  refine ⟨?_, ?_, ?_⟩
  · intro hout
    simp only [processPyBlock, if_pos hb]
    rw [if_pos hout]
  · intro hin
    simp only [processPyBlock, if_pos hb]
    rw [if_neg (by omega)]
    rcases hq : assess_quality_enhanced
        (joinSep '\n' (pySlice lines (node.lineno - 1) node.end_lineno))
        "python" (pyFragType node.kind) with ⟨q, m⟩
    simp only
    by_cases hlt : q < cfg.min_quality
    · simp [hlt]
    · simp [hlt]
  · intro code jsLines m fp2 pn2
    constructor
    · intro hout
      simp only [processJsMatch]
      rw [if_pos hout]
    · intro hin
      simp only [processJsMatch]
      rw [if_neg (by omega)]
      rcases hq : assess_quality_enhanced (extract_js_block jsLines (jsStartLine code m)).1
          "javascript" m.fragType with ⟨q, mm⟩
      simp only
      by_cases hlt : q < cfg.min_quality
      · simp [hlt]
      · simp [hlt]

/-- Witness for C2 at a concrete input: a 5-line block is dropped under
`min_lines = 6`. -/
theorem claim_C2_witness :
    processPyBlock blankyLines nodeF5 "m.py" "p" cfgMin6 = none :=
  (claim_C2 blankyLines nodeF5 "m.py" "p" cfgMin6 (by decide)).1 (by decide)

/-- An invalid configuration: `min_quality` out of `[1,10]`,
`max_lines < min_lines`, `max_workers < 1`. -/
def cfgInvalid : Config :=
  { min_quality := 20, min_lines := 5, max_lines := 1, max_workers := 0 }

/-- C4 counterexample: with an invalid configuration (flagged by
`Config.validate`: `min_quality = 20`, `max_lines < min_lines`,
`max_workers = 0`) the extraction entry point does not fail with a
validation error — it returns an ordinary (here empty)
`ExtractionResult`. -/
theorem claim_C4_counterexample :
    Config.validate cfgInvalid ≠ [] ∧
      extract_fragments_checked [⟨"p", [blankyFile]⟩] cfgInvalid =
        Except.ok { fragments := [] } := by
  decide

/-- C4 amended: `Config.validate` does flag the invalid configurations the
claim lists (non-empty issue list), but `extract_fragments` never invokes
it and never raises a validation error.  The only failure an invalid
configuration can cause is the `ValueError` from `ThreadPoolExecutor`
construction, raised at fan-out — not an eager validation error — and only
when `parallel_scan` is on, more than 10 files are supplied and
`max_workers ≤ 0`; in every other case (in particular for invalid
`min_lines`/`max_lines`/`min_quality` bounds) the call returns the
ordinary pipeline `ExtractionResult`. -/
theorem claim_C4 (ps : List ProjectE) (cfg : Config)
    (h : cfg.max_lines < cfg.min_lines ∨ ¬(1 ≤ cfg.min_quality ∧ cfg.min_quality ≤ 10) ∨
         cfg.max_workers < 1) :
    Config.validate cfg ≠ [] ∧
      (∀ e : String, extract_fragments_checked ps cfg = Except.error e →
        e = "max_workers must be greater than 0" ∧
        cfg.parallel_scan = true ∧ 10 < totalFiles ps ∧ cfg.max_workers ≤ 0) ∧
      (¬(cfg.parallel_scan = true ∧ 10 < totalFiles ps ∧ cfg.max_workers ≤ 0) →
        extract_fragments_checked ps cfg = Except.ok (extract_fragments ps cfg)) := by
  refine ⟨?_, fun e he => extract_fragments_checked_error he,
    fun hnc => extract_fragments_checked_eq ps cfg hnc⟩
  intro hc
  unfold Config.validate at hc
  simp only [List.append_eq_nil] at hc
  obtain ⟨⟨⟨⟨⟨⟨h1, h2⟩, h3⟩, h4⟩, h5⟩, h6⟩, h7⟩ := hc
  rcases h with h | h | h
  · rw [if_pos h] at h5; cases h5
  · rw [if_pos h] at h3; cases h3
  · rw [if_pos h] at h6; cases h6

/-- Witness for C4 at a concrete invalid configuration (one file, so the
sequential branch runs and the ordinary result is returned). -/
theorem claim_C4_witness :
    Config.validate cfgInvalid ≠ [] ∧
      extract_fragments_checked [⟨"p", [blankyFile]⟩] cfgInvalid =
        Except.ok (extract_fragments [⟨"p", [blankyFile]⟩] cfgInvalid) :=
  ⟨(claim_C4 [⟨"p", [blankyFile]⟩] cfgInvalid (by decide)).1,
   (claim_C4 [⟨"p", [blankyFile]⟩] cfgInvalid (by decide)).2.2 (by decide)⟩

/-- A permissive config with `skip_tests` enabled. -/
def cfgSkipTests : Config := { min_lines := 1, min_quality := 1, skip_tests := true }

/-- A JS file whose single function is test-classified by the scorer
(its name contains `test`). -/
def jsTestFile : FileInput :=
  { path := "t.js", text := some "function testFoo() \x7b\n  return 1;\n\x7d",
    jsMatches := [{ name := "testFoo", matchStart := 0, fragType := "Function" }] }

/-- C6 counterexample: with `skip_tests` enabled, a JS fragment that the
scorer classifies as a test (`is_test = true` in its metrics) still appears
in the final result, because the JS assembler never copies `is_test` into
`has_tests` (which stays `false`). -/
theorem claim_C6_counterexample :
    cfgSkipTests.skip_tests = true ∧
      (extract_fragments [⟨"p", [jsTestFile]⟩] cfgSkipTests).fragments.length = 1 ∧
      mGetBool (assess_quality_enhanced
          ((extract_fragments [⟨"p", [jsTestFile]⟩] cfgSkipTests).fragments.getD 0
            default).code
          "javascript" "Function").2 "is_test" false = true ∧
      ((extract_fragments [⟨"p", [jsTestFile]⟩] cfgSkipTests).fragments.getD 0
        default).has_tests = false := by
  decide

/-- C6 amended: with `skip_tests` enabled, every fragment with
`has_tests = true` is dropped — no fragment of the returned result has
`has_tests = true`.  But only the structured-dialect assembler copies the
scorer's `is_test` signal into `has_tests`; the brace-dialect assembler
always leaves `has_tests = false`, so test-classified JS fragments are not
dropped. -/
theorem claim_C6 :
    (∀ (ps : List ProjectE) (cfg : Config), cfg.skip_tests = true →
      ∀ f ∈ (extract_fragments ps cfg).fragments, f.has_tests = false) ∧
    (∀ (code : String) (ms : List JsMatch) (fp pn : String) (cfg : Config),
      ∀ f ∈ extract_js_fragments code ms fp pn cfg, f.has_tests = false) := by
  constructor
  · intro ps cfg hskip f hf
    unfold extract_fragments at hf
    simp only at hf
    rw [mem_sortFragments] at hf
    unfold extract_fragments_parallel postFilter at hf
    rw [if_pos hskip] at hf
    have := (List.mem_filter.mp hf).2
    simpa using this
  · intro code ms fp pn cfg f hf
    unfold extract_js_fragments at hf
    obtain ⟨mm, _, hsome⟩ := List.mem_filterMap.mp hf
    exact (processJsMatch_fields hsome).2.2.2.2.2

/-- Witness for C6 at a concrete input. -/
theorem claim_C6_witness :
    ((extract_fragments [⟨"p", [jsTestFile]⟩] cfgSkipTests).fragments.getD 0
      default).has_tests = false :=
  claim_C6.1 [⟨"p", [jsTestFile]⟩] cfgSkipTests rfl
    ((extract_fragments [⟨"p", [jsTestFile]⟩] cfgSkipTests).fragments.getD 0 default)
    (by decide)

/-- A function node spanning lines 1–3. -/
def nodeF3 : PyNode :=
  { name := "f", kind := PyKind.functionDef, lineno := 1, end_lineno := 3 }

/-- Two distinct Python files with the SAME basename in different
directories of one project. -/
def pyFileA : FileInput :=
  { path := "a/f.py", text := some "def f():\n    alpha = 1\n    return alpha",
    pyAst := some [nodeF3] }

/-- See `pyFileA`. -/
def pyFileB : FileInput :=
  { path := "b/f.py", text := some "def f():\n    beta = 2\n    return beta",
    pyAst := some [nodeF3] }

/-- C7 counterexample: `stable_uid` keys the file BASENAME, not the full
path — two distinct fragments from `a/f.py` and `b/f.py` at the same start
line share one uid inside a single extraction result, refuting the
uniqueness half of the claim. -/
theorem claim_C7_counterexample :
    (extract_fragments [⟨"p", [pyFileA, pyFileB]⟩] cfgLoose).fragments.length = 2 ∧
      ((extract_fragments [⟨"p", [pyFileA, pyFileB]⟩] cfgLoose).fragments.getD 0
          default).uid =
        ((extract_fragments [⟨"p", [pyFileA, pyFileB]⟩] cfgLoose).fragments.getD 1
          default).uid ∧
      ((extract_fragments [⟨"p", [pyFileA, pyFileB]⟩] cfgLoose).fragments.getD 0
          default) ≠
        ((extract_fragments [⟨"p", [pyFileA, pyFileB]⟩] cfgLoose).fragments.getD 1
          default) := by
  decide

/-- C7 amended: every fragment's uid is the deterministic `stable_uid` of
the triple (project name, file BASENAME, 0-based start line), so any two
result fragments — from the same run or from different runs — that agree on
that triple have equal uids.  The uid does not, however, uniquely key a
fragment within one result (see the counterexample: same-named files in
different directories collide). -/
theorem claim_C7 :
    (∀ (ps : List ProjectE) (cfg : Config) (f : Fragment),
      f ∈ (extract_fragments ps cfg).fragments → uidKeyed f) ∧
    (∀ (ps ps' : List ProjectE) (cfg cfg' : Config) (f g : Fragment),
      f ∈ (extract_fragments ps cfg).fragments →
      g ∈ (extract_fragments ps' cfg').fragments →
      f.project = g.project → pathName f.file = pathName g.file →
      f.start_line = g.start_line → f.uid = g.uid) := by
  refine ⟨fun ps cfg f hf => extract_fragments_uidKeyed ps cfg f hf, ?_⟩
  intro ps ps' cfg cfg' f g hf hg hp hn hs
  have h1 := extract_fragments_uidKeyed ps cfg f hf
  have h2 := extract_fragments_uidKeyed ps' cfg' g hg
  unfold uidKeyed at h1 h2
  rw [h1, h2, hp, hn, hs]

/-- Witness for C7 at a concrete input. -/
theorem claim_C7_witness :
    uidKeyed
      ((extract_fragments [⟨"p", [pyFileA, pyFileB]⟩] cfgLoose).fragments.getD 0
        default) :=
  claim_C7.1 [⟨"p", [pyFileA, pyFileB]⟩] cfgLoose
    ((extract_fragments [⟨"p", [pyFileA, pyFileB]⟩] cfgLoose).fragments.getD 0 default)
    (by decide)

theorem extract_from_file_parse_fail (file : FileInput) (proj : ProjectE) (cfg : Config)
    (h1 : pathSuffix file.path = ".py") (h2 : file.pyAst = none) :
    extract_from_file file proj cfg = [] := by
  unfold extract_from_file
  rcases ht : file.text with _ | code
  · rfl
  · simp only
    by_cases hempty : code = ""
    · rw [if_pos hempty]
    · rw [if_neg hempty, if_pos h1]
      unfold extract_python_fragments
      rw [h2]

theorem extract_from_file_proj (file : FileInput) (p q : ProjectE)
    (h : p.name = q.name) (cfg : Config) :
    extract_from_file file p cfg = extract_from_file file q cfg := by
  unfold extract_from_file
  rw [h]

theorem extract_fragments_parse_fail (pname : String) (xs ys : List FileInput)
    (file : FileInput) (cfg : Config)
    (h1 : pathSuffix file.path = ".py") (h2 : file.pyAst = none) :
    extract_fragments [⟨pname, xs ++ file :: ys⟩] cfg =
      extract_fragments [⟨pname, xs ++ ys⟩] cfg := by
  have hraw : rawFragments [⟨pname, xs ++ file :: ys⟩] cfg =
      rawFragments [⟨pname, xs ++ ys⟩] cfg := by
    unfold rawFragments
    simp only [List.flatMap_cons, List.flatMap_nil, List.append_nil]
    have hfun : ∀ ff : FileInput,
        extract_from_file ff ⟨pname, xs ++ file :: ys⟩ cfg =
          extract_from_file ff ⟨pname, xs ++ ys⟩ cfg :=
      fun ff => extract_from_file_proj ff _ _ rfl cfg
    rw [List.flatMap_append, List.flatMap_append, List.flatMap_cons,
        extract_from_file_parse_fail file ⟨pname, xs ++ file :: ys⟩ cfg h1 h2]
    simp only [List.nil_append, hfun]
  unfold extract_fragments extract_fragments_parallel
  rw [hraw]

/-- C8: a structured-dialect file whose text fails to parse (`ast.parse`
raises, modelled by `pyAst = none`) contributes zero fragments and does not
abort: `extract_python_fragments` returns `[]`, `extract_from_file` returns
`[]`, and the whole-batch result equals the result with that file removed —
the other files of the batch are extracted unaffected. -/
theorem claim_C8 :
    (∀ (code fp pn : String) (cfg : Config),
      extract_python_fragments code none fp pn cfg = []) ∧
    (∀ (file : FileInput) (proj : ProjectE) (cfg : Config),
      pathSuffix file.path = ".py" → file.pyAst = none →
      extract_from_file file proj cfg = []) ∧
    (∀ (pname : String) (xs ys : List FileInput) (file : FileInput) (cfg : Config),
      pathSuffix file.path = ".py" → file.pyAst = none →
      extract_fragments [⟨pname, xs ++ file :: ys⟩] cfg =
        extract_fragments [⟨pname, xs ++ ys⟩] cfg) :=
  ⟨fun _ _ _ _ => rfl,
   fun file proj cfg h1 h2 => extract_from_file_parse_fail file proj cfg h1 h2,
   fun pname xs ys file cfg h1 h2 => extract_fragments_parse_fail pname xs ys file cfg h1 h2⟩

/-- A `.py` file whose text does not parse. -/
def badPyFile : FileInput := { path := "bad.py", text := some "def (", pyAst := none }

/-- Witness for C8 at a concrete input: adding the unparseable file to the
batch leaves the result unchanged. -/
theorem claim_C8_witness :
    (pathSuffix badPyFile.path = ".py") ∧
      extract_fragments [⟨"p", [badPyFile, blankyFile]⟩] cfgLoose =
        extract_fragments [⟨"p", [blankyFile]⟩] cfgLoose :=
  ⟨by decide, claim_C8.2.2 "p" [] [blankyFile] badPyFile cfgLoose (by decide) rfl⟩

/-- C9 counterexample: a result fragment whose stored code has 5 physical
lines but only 3 non-blank lines carries `lines = 5` — the `lines` field
counts all physical lines, not the non-blank ones as claimed. -/
theorem claim_C9_counterexample :
    (extract_fragments [⟨"p", [blankyFile]⟩] cfgLoose).fragments.length = 1 ∧
      ((extract_fragments [⟨"p", [blankyFile]⟩] cfgLoose).fragments.getD 0
        default).lines = 5 ∧
      ((pySplitlines
          ((extract_fragments [⟨"p", [blankyFile]⟩] cfgLoose).fragments.getD 0
            default).code).filter (fun l => !isBlank l)).length = 3 := by
  decide

/-- C9 amended: a fragment's `lines` field equals the count of ALL physical
lines of its stored code block (blank lines included): the structured
dialect stores the slice `lines[start:end]` and its length, the brace
dialect stores the brace-matched block and its `splitlines` length. -/
theorem claim_C9 :
    (∀ (lines : List String) (node : PyNode) (fp pn : String) (cfg : Config) (f : Fragment),
      processPyBlock lines node fp pn cfg = some f →
      f.code = joinSep '\n' (pySlice lines (node.lineno - 1) node.end_lineno) ∧
      f.lines = (pySlice lines (node.lineno - 1) node.end_lineno).length) ∧
    (∀ (code : String) (lines : List String) (m : JsMatch) (fp pn : String)
        (cfg : Config) (f : Fragment),
      processJsMatch code lines m fp pn cfg = some f →
      f.lines = (pySplitlines f.code).length) := by
  constructor
  · intro lines node fp pn cfg f h
    obtain ⟨_, _, _, _, hc, hl, _⟩ := processPyBlock_fields h
    exact ⟨hc, hl⟩
  · intro code lines m fp pn cfg f h
    obtain ⟨_, _, _, _, hl, _⟩ := processJsMatch_fields h
    exact hl

/-- Witness for C9 at a concrete input. -/
theorem claim_C9_witness :
    ((processPyBlock blankyLines nodeF5 "m.py" "p" cfgLoose).getD default).code =
        joinSep '\n' (pySlice blankyLines (nodeF5.lineno - 1) nodeF5.end_lineno) ∧
      ((processPyBlock blankyLines nodeF5 "m.py" "p" cfgLoose).getD default).lines =
        (pySlice blankyLines (nodeF5.lineno - 1) nodeF5.end_lineno).length :=
  claim_C9.1 blankyLines nodeF5 "m.py" "p" cfgLoose
    ((processPyBlock blankyLines nodeF5 "m.py" "p" cfgLoose).getD default) (by decide)

end ClaimProofs

end Autopsy
